import Mathlib

/-!
# maddy: delivery queue and SQL storage target

A shallow embedding of `queue.go` (recipient filter, delivery attempt, ingress,
retry worker, startup recovery) and of `SQLStorage.Deliver` from `sql.go`,
followed by theorems about them.

Conventions of the embedding
* Go strings are Lean `String`s; the only separator the code splits on is the
  one-byte `@`, so splitting on characters and on bytes coincide.
* Go maps with string keys are association lists read with first-match lookup.
  Maps are taken to be allocated (a write to a nil map is not modelled).
* `time.Time` and `time.Duration` are integers counting nanoseconds; durations
  are `int64`, so products of durations wrap modulo `2^64`.
* A pointer that may be nil is an `Option`.
* The goroutine started by `Queue.Deliver` is run to completion inside the
  ingress step (sequential interleaving).
-/

namespace Maddy

/-! ## Go runtime pieces -/

/-- Go map from string to string, as an association list. -/
abbrev GoMap := List (String × String)

/-- Go expression `v, ok := m[k]`, the `ok` part. -/
def mapHas (m : GoMap) (k : String) : Bool := (m.lookup k).isSome

/-- Go expression `m[k]`: the zero value (empty string) when the key is absent. -/
def mapIndex (m : GoMap) (k : String) : String := (m.lookup k).getD ""

/-- Go statement `m[k] = v`. -/
def mapSet (m : GoMap) (k v : String) : GoMap := (k, v) :: m.filter (fun p => p.1 != k)

/-- Pieces of a character list between occurrences of `sep`. -/
def splitOnChar (sep : Char) : List Char → List (List Char)
  | [] => [[]]
  | c :: cs =>
    if c = sep then [] :: splitOnChar sep cs
    else
      match splitOnChar sep cs with
      | [] => [[c]]
      | p :: ps => (c :: p) :: ps

/-- Go `strings.Split(s, sep)` for a one-character separator. -/
def Split (s : String) (sep : Char) : List String :=
  (splitOnChar sep s.data).map String.mk

/-! ## Data model -/

/-- Go `net.Addr`: only the distinction between `*net.TCPAddr` and any other
implementation matters to the queue. -/
inductive NetAddr where
  | tcp (addr : String)
  | other (addr : String)
  deriving DecidableEq, Repr

/-- Modelled from the spec: `module.DeliveryContext` is declared outside the
given sources; the fields are those the spec lists and the code reads. -/
structure DeliveryContext where
  DeliveryID : String
  SrcAddr : Option NetAddr
  SrcHostname : String
  OurHostname : String
  From : String
  To : List String
  Opts : GoMap
  Ctx : GoMap
  deriving DecidableEq, Repr

/-- Go `PartialError`. -/
structure PartialError where
  Successful : List String
  Failed : List String
  TemporaryFailed : List String
  Errs : GoMap
  deriving DecidableEq, Repr

/-- Go `QueueMetadata`; `Ctx` is a pointer. -/
structure QueueMetadata where
  ID : String
  Ctx : Option DeliveryContext
  Failed : List String
  TriesCount : Int
  LastAttempt : Int
  deriving DecidableEq, Repr

/-! ## Recipient filter -/

/-- Loop of `filterRcpts`: `acc` is `newRcpts`, the list argument is the rest
of `ctx.To` still to be visited. -/
def filterLoop (ctx : DeliveryContext) : List String → List String → Except String (List String)
  | [], acc => .ok acc
  | rcpt :: rest, acc =>
    let parts := Split rcpt '@'
    if parts.length ≠ 2 then
      .error ("malformed address " ++ rcpt ++ ": missing domain part")
    else
      let skipLocal : Bool :=
        if mapHas ctx.Opts "local_only" then
          let hostname := mapIndex ctx.Opts "hostname"
          let hostname := if hostname = "" then ctx.OurHostname else hostname
          decide (parts.getD 1 "" ≠ hostname)
        else false
      if skipLocal then filterLoop ctx rest acc
      else
        let skipRemote : Bool :=
          if mapHas ctx.Opts "remote_only" then
            let hostname := mapIndex ctx.Opts "hostname"
            let hostname := if hostname = "" then ctx.OurHostname else hostname
            decide (parts.getD 1 "" = hostname)
          else false
        if skipRemote then filterLoop ctx rest acc
        else filterLoop ctx rest (acc ++ [rcpt])

/-- Go `filterRcpts(ctx *DeliveryContext) error`: the context after the call
and the returned error (`none` is Go `nil`). -/
def filterRcpts (ctx : DeliveryContext) : DeliveryContext × Option String :=
  match filterLoop ctx ctx.To [] with
  | .ok newRcpts => ({ ctx with To := newRcpts }, none)
  | .error e => (ctx, some e)

/-! ### The filter as the specification words it -/

/-- Hostname the filter compares against: `options["hostname"]` when present
and non-empty, else `ctx.OurHostname`. -/
def specHostname (ctx : DeliveryContext) : String :=
  match ctx.Opts.lookup "hostname" with
  | some v => if v = "" then ctx.OurHostname else v
  | none => ctx.OurHostname

/-- Domain of an address: the text after its first `@`. -/
def specDomain (r : String) : String :=
  String.mk ((r.data.dropWhile (fun c => c != '@')).drop 1)

/-- Retention predicate of the specification. -/
def specKeeps (ctx : DeliveryContext) (r : String) : Bool :=
  (!(mapHas ctx.Opts "local_only") || decide (specDomain r = specHostname ctx)) &&
  (!(mapHas ctx.Opts "remote_only") || decide (specDomain r ≠ specHostname ctx))

/-- Number of `@` characters in an address. -/
def atCount (r : String) : Nat := r.data.count '@'


/-! ## Machine integers, time and the retry factor -/

/-- Wrap an integer into the `int64` range (Go arithmetic on `int`,
`int64` and `time.Duration` wraps silently). -/
def int64Wrap (x : Int) : Int := (x + 2 ^ 63) % 2 ^ 64 - 2 ^ 63

/-- Smallest `int64`; what the amd64 conversion of an out-of-range or infinite
`float64` to `int64` yields. -/
def minInt64 : Int := -(2 ^ 63)

/-- Go `time.Duration(math.Pow(scale, float64(e)))` for an integral `scale`.
Powers of an integral base are computed exactly by `math.Pow` while they are
representable; a negative exponent gives a fraction that the conversion
truncates to zero (or `1` for base one, `+Inf` for base zero). -/
def powDuration (scale : Nat) (e : Int) : Int :=
  if e < 0 then
    if scale = 0 then minInt64 else if scale = 1 then 1 else 0
  else if (scale : Int) ^ e.toNat < 2 ^ 63 then (scale : Int) ^ e.toNat
  else minInt64

/-- One minute, one second (`time.Minute`, `time.Second`) in nanoseconds. -/
def minute : Int := 60000000000

/-- Go `time.Second`. -/
def second : Int := 1000000000

/-! ## The queue and the world it runs in -/

/-- Result of one `Target.Deliver` call. -/
inductive TargetResult where
  | ok
  | partialErr (pe : PartialError)
  | otherErr (msg : String)
  deriving DecidableEq, Repr

/-- Behaviour of a delivery target (`module.DeliveryTarget`): its answer may
depend on how many calls it has already received, on the context and on the
body reader it is handed (`none` is a nil `*os.File`). -/
abbrev DeliveryTarget := Nat → DeliveryContext → Option String → TargetResult

/-- Go `Queue`, the fields that decide behaviour. `retryTimeScale` is a
`float64` holding an integral value (`NewQueue` stores `2`). -/
structure Queue where
  name : String
  location : String
  initialRetryTime : Int
  retryTimeScale : Nat
  maxTries : Int
  Target : DeliveryTarget

/-- Go `NewQueue`, followed by what `Init` reads from the configuration
(`max_tries`, `location`, `target`). -/
def NewQueue (instName location : String) (maxTries : Int) (target : DeliveryTarget) : Queue :=
  { name := instName
    location := location
    initialRetryTime := 15 * minute
    retryTimeScale := 2
    maxTries := maxTries
    Target := target }

/-- Modelled from the spec: `TimeWheel` is declared outside the given sources.
An entry of the wheel: `due` and `id` are the arguments of `wheel.Add`;
`after` records the duration that was added to obtain `due`. -/
structure Slot where
  due : Int
  after : Int
  id : String
  deriving DecidableEq, Repr

/-- Everything outside the queue value: the store directory, the wheel, the
clock and the target, plus logs of what happened. -/
structure World where
  /-- Files `<id>.meta`; `none` is content that does not decode. -/
  metaFiles : List (String × Option QueueMetadata)
  /-- Files `<id>`. -/
  bodyFiles : List (String × String)
  /-- Whether `os.Create` succeeds on a file name. -/
  canCreate : String → Bool
  /-- Pending entries of the time wheel, in order of `Add`. -/
  wheel : List Slot
  /-- Successive readings of `time.Now()`. -/
  clock : Nat → Int
  /-- Number of readings taken so far. -/
  tick : Nat
  /-- Calls received by the target so far. -/
  calls : List (DeliveryContext × Option String)
  /-- Every metadata record encoded to the store so far. -/
  metaWrites : List QueueMetadata
  /-- A goroutine panicked (nil dereference). -/
  fault : Bool

/-- A fresh world: empty store directory, empty wheel, nothing logged. -/
def World.init (clock : Nat → Int) (canCreate : String → Bool) : World :=
  { metaFiles := [], bodyFiles := [], canCreate := canCreate, wheel := [],
    clock := clock, tick := 0, calls := [], metaWrites := [], fault := false }

/-- Go `time.Now()`. -/
def timeNow (w : World) : Int × World := (w.clock w.tick, { w with tick := w.tick + 1 })

/-- Go `QueueMetadata{}`. -/
def zeroMeta : QueueMetadata :=
  { ID := "", Ctx := none, Failed := [], TriesCount := 0, LastAttempt := 0 }

/-- Go `Queue.attemptDelivery`: `none` is the panic of dereferencing a nil
`meta.Ctx`; otherwise `(shouldRetry, newRcpts)`, the metadata after the call
and the world after the call. -/
def attemptDelivery (q : Queue) (md : QueueMetadata) (body : Option String) (w : World) :
    Option ((Bool × List String) × QueueMetadata × World) :=
  match md.Ctx with
  | none => none
  | some ctx =>
    let ctx := { ctx with Ctx := mapSet ctx.Ctx "id" md.ID }
    let md := { md with Ctx := some ctx }
    let err := q.Target w.calls.length ctx body
    let w := { w with calls := w.calls ++ [(ctx, body)] }
    match err with
    | .ok => some ((false, []), md, w)
    | .partialErr pe =>
      some ((decide (pe.TemporaryFailed.length ≠ 0), pe.TemporaryFailed),
        { md with Failed := md.Failed ++ pe.Failed }, w)
    | .otherErr _ => some ((false, []), { md with Failed := md.Failed ++ ctx.To }, w)

/-- Go `Queue.removeFromDisk`. -/
def removeFromDisk (id : String) (w : World) : World :=
  { w with bodyFiles := w.bodyFiles.filter (fun p => p.1 != id),
           metaFiles := w.metaFiles.filter (fun p => p.1 != id) }

/-- Go type assertion `addr.(*net.TCPAddr)`, the `ok` part. -/
def isTCPAddr : Option NetAddr → Bool
  | some (.tcp _) => true
  | _ => false

/-- Go `Queue.updateMetadataOnDisk`: the metadata after the call (the source
address is cleared unless it is a TCP address), whether an error was returned,
and the world. A nil `meta.Ctx` panics. -/
def updateMetadataOnDisk (md : QueueMetadata) (w : World) : QueueMetadata × Bool × World :=
  if w.canCreate (md.ID ++ ".meta") then
    match md.Ctx with
    | none => (md, true, { w with fault := true })
    | some ctx =>
      let ctx := if isTCPAddr ctx.SrcAddr then ctx else { ctx with SrcAddr := none }
      let md := { md with Ctx := some ctx }
      (md, false,
        { w with metaFiles := (md.ID, some md) :: w.metaFiles.filter (fun p => p.1 != md.ID),
                 metaWrites := w.metaWrites ++ [md] })
  else (md, true, w)

/-- Go `Queue.storeNewMessage`. -/
def storeNewMessage (md : QueueMetadata) (body : String) (w : World) :
    QueueMetadata × Bool × World :=
  if w.canCreate md.ID then
    let w := { w with bodyFiles := (md.ID, body) :: w.bodyFiles.filter (fun p => p.1 != md.ID) }
    match updateMetadataOnDisk md w with
    | (md, true, w) =>
      (md, true, { w with bodyFiles := w.bodyFiles.filter (fun p => p.1 != md.ID) })
    | (md, false, w) => (md, false, w)
  else (md, true, w)

/-- Go `Queue.readMessageMeta`: `none` is an error (file absent or not
decodable). -/
def readMessageMeta (id : String) (w : World) : Option QueueMetadata :=
  match w.metaFiles.lookup id with
  | some (some md) => some md
  | _ => none

/-- Go `Queue.openMessage`: metadata, body file (`none` is nil) and whether an
error was returned. The `os.Remove` after a failed open names the body path,
which is the file that could not be opened, so the store is unchanged. -/
def openMessage (id : String) (w : World) : QueueMetadata × Option String × Bool :=
  match readMessageMeta id w with
  | none => (zeroMeta, none, true)
  | some md =>
    match w.bodyFiles.lookup id with
    | some b => (md, some b, false)
    | none => (md, none, true)

/-- Duration added by `retryDelivery` to the clock reading:
`q.initialRetryTime * time.Duration(math.Pow(q.retryTimeScale, float64(tries)))`. -/
def retryDelay (q : Queue) (tries : Int) : Int :=
  int64Wrap (q.initialRetryTime * powDuration q.retryTimeScale tries)

/-- Go `Queue.retryDelivery`. The error of `openMessage` is logged and
execution continues; `body.Close()` on a nil file returns an error that is
dropped. -/
def retryDelivery (q : Queue) (id : String) (w : World) : World :=
  match openMessage id w with
  | (md, body, _) =>
    match attemptDelivery q md body w with
    | none => { w with fault := true }
    | some ((shouldRetry, newRcpts), md, w) =>
      if !shouldRetry then removeFromDisk id w
      else
        match md.Ctx with
        | none => { w with fault := true }
        | some ctx =>
          let md := { md with Ctx := some { ctx with To := newRcpts } }
          if md.TriesCount = q.maxTries ∨ newRcpts.length = 0 then removeFromDisk id w
          else
            let md := { md with TriesCount := int64Wrap (md.TriesCount + 1) }
            let (t, w) := timeNow w
            let md := { md with LastAttempt := t }
            match updateMetadataOnDisk md w with
            | (md, _, w) =>
              let (nextTryTime, w) := timeNow w
              let d := retryDelay q md.TriesCount
              let nextTryTime := nextTryTime + d
              let (_, w) := timeNow w
              { w with wheel := w.wheel ++ [{ due := nextTryTime, after := d, id := id }] }

/-- The `msg io.Reader` argument of `Queue.Deliver`. -/
inductive MsgReader where
  | seekable (data : String)
  | stream (data : String)
  | failing
  deriving DecidableEq, Repr

/-- Body of the goroutine started by `Queue.Deliver`. -/
def deliverTask (q : Queue) (id : String) (ctx : DeliveryContext) (body : String) (w : World) :
    World :=
  let (t, w) := timeNow w
  let md : QueueMetadata :=
    { ID := id, TriesCount := 1, Ctx := some ctx, LastAttempt := t, Failed := [] }
  match attemptDelivery q md (some body) w with
  | none => { w with fault := true }
  | some ((shouldRetry, newRcpts), md, w) =>
    if !shouldRetry then w
    else
      match md.Ctx with
      | none => { w with fault := true }
      | some ctx =>
        let md := { md with Ctx := some { ctx with To := newRcpts } }
        match storeNewMessage md body w with
        | (_, true, w) => w
        | (md, false, w) =>
          let (_, w) := timeNow w
          let (t, w) := timeNow w
          { w with wheel := w.wheel ++
              [{ due := t + q.initialRetryTime, after := q.initialRetryTime, id := md.ID }] }

/-- Go `Queue.Deliver`: the returned error (`none` is nil) and the world once
the goroutine it starts has finished. -/
def Deliver (q : Queue) (ctx : DeliveryContext) (msg : MsgReader) (w : World) :
    Option String × World :=
  match filterRcpts ctx with
  | (_, some err) => (some err, w)
  | (ctx, none) =>
    if ctx.To.length = 0 then (none, w)
    else
      let id := ctx.DeliveryID
      match msg with
      | .failing => (some "failed to buffer message", w)
      | .seekable data => (none, deliverTask q id ctx data w)
      | .stream data => (none, deliverTask q id ctx data w)

/-- Duration added by `readDiskQueue` to `meta.LastAttempt`. -/
def recoveryDelay (q : Queue) (tries : Int) : Int :=
  int64Wrap (q.initialRetryTime * powDuration q.retryTimeScale (int64Wrap (tries - 1)))

/-- One iteration of the loop of `Queue.readDiskQueue`, for the directory
entry `<id>.meta`. When the body file is missing the entry is skipped; the
`os.Remove(entry.Name())` there names a path relative to the working
directory, not the store, so the store is unchanged. -/
def readDiskEntry (q : Queue) (id : String) (w : World) : World :=
  match w.bodyFiles.lookup id with
  | none => w
  | some _ =>
    match readMessageMeta id w with
    | none => w
    | some md =>
      let d := recoveryDelay q md.TriesCount
      let nextTryTime := md.LastAttempt + d
      let (t, w) := timeNow w
      if nextTryTime < t then
        let (t, w) := timeNow w
        let (_, w) := timeNow w
        { w with wheel := w.wheel ++ [{ due := t + 5 * second, after := 5 * second, id := id }] }
      else
        let (_, w) := timeNow w
        { w with wheel := w.wheel ++ [{ due := nextTryTime, after := d, id := id }] }

/-- Go `Queue.readDiskQueue`: one iteration per `.meta` entry of the store
directory. -/
def readDiskQueue (q : Queue) (w : World) : World :=
  (w.metaFiles.map (fun p => p.1)).foldl (fun w id => readDiskEntry q id w) w

/-- Modelled from the spec: `TimeWheel.Dispatch` is outside the given sources.
The entry emitted next: smallest due time, first added among equals. -/
def earliest : List Slot → Option Slot
  | [] => none
  | s :: rest =>
    match earliest rest with
    | none => some s
    | some m => if m.due < s.due then some m else some s

/-- One iteration of `Queue.worker`: take the next entry of the wheel and
retry it. Nothing runs after a panic. -/
def workerStep (q : Queue) (w : World) : World :=
  if w.fault then w
  else
    match earliest w.wheel with
    | none => w
    | some s => retryDelivery q s.id { w with wheel := w.wheel.erase s }

/-- Run the worker until the wheel is empty, for at most `fuel` entries. -/
def runWorker (q : Queue) : Nat → World → World
  | 0, w => w
  | fuel + 1, w =>
    if w.fault then w
    else
      match earliest w.wheel with
      | none => w
      | some _ => runWorker q fuel (workerStep q w)

/-- A step of the queue as seen from outside: a message arrives, or a worker
retries an id. -/
inductive Op where
  | ingress (ctx : DeliveryContext) (msg : MsgReader)
  | retry (id : String)

/-- Execute one step; nothing runs after a panic. -/
def stepOp (q : Queue) (w : World) (op : Op) : World :=
  if w.fault then w
  else
    match op with
    | .ingress ctx msg => (Deliver q ctx msg w).2
    | .retry id => retryDelivery q id w

/-- Execute a sequence of steps. -/
def runOps (q : Queue) (w : World) (ops : List Op) : World := ops.foldl (stepOp q) w

/-! ## SQL storage target (`sql.go`) -/

/-- Go `bytes.Buffer`: the portion not yet read. Reading consumes it. -/
structure Buffer where
  unread : String
  deriving DecidableEq, Repr

/-- Go `Literal` as `SQLStorage.Deliver` builds it: the embedded reader is
`io.MultiReader(strings.NewReader(header), &buf)`, so it is determined by the
header text and the shared buffer; `length` is the declared length. -/
structure Literal where
  header : String
  length : Nat
  deriving DecidableEq, Repr

/-- Go `Literal.Len`. -/
def Literal.Len (l : Literal) : Nat := l.length

/-- Reading a literal to its end: the header, then whatever the shared buffer
still holds; the buffer is left empty. -/
def Literal.readAll (l : Literal) (buf : Buffer) : String × Buffer :=
  (l.header ++ buf.unread, { unread := "" })

/-- What a mailbox received from one `CreateMessage` call. -/
structure StoredMessage where
  user : String
  mailbox : String
  content : String
  declaredLen : Nat
  deriving DecidableEq, Repr

/-- Modelled from the spec: the mailbox backend (`imapsql.Backend`) is an
external collaborator; it is reduced to the users it knows, the users that
have an `INBOX`, and the messages appended so far. `CreateMessage` reads its
literal to the end. -/
structure Backend where
  users : List String
  inboxes : List String
  messages : List StoredMessage
  deriving DecidableEq, Repr

/-- Header text put before the body for one recipient; `sanitizeString` is
defined outside the given sources and taken as a parameter. -/
def headerFor (sanitizeString : String → String) (sender rcpt : String) : String :=
  ("Return-Path: <" ++ sanitizeString sender ++ ">\r\n") ++
    ("Delivered-To: " ++ sanitizeString rcpt ++ "\r\n")

/-- Loop of `SQLStorage.Deliver` over `ctx.To`; `buf` is the buffer filled
once before the loop. Returns the error (`none` is nil) and the backend. -/
def sqlDeliverLoop (sanitizeString : String → String) (sender : String) :
    List String → Buffer → Backend → Option String × Backend
  | [], _, be => (none, be)
  | rcpt :: rest, buf, be =>
    let parts := Split rcpt '@'
    if parts.length ≠ 2 then (some "Deliver: missing domain part", be)
    else
      let user := parts.getD 0 ""
      if ¬ user ∈ be.users then (some "550 Local mailbox doesn't exists", be)
      else
        let be := if user ∈ be.inboxes then be else { be with inboxes := user :: be.inboxes }
        let header := headerFor sanitizeString sender rcpt
        let msg : Literal :=
          { header := header, length := header.utf8ByteSize + buf.unread.utf8ByteSize }
        let (content, buf) := msg.readAll buf
        let be := { be with messages := be.messages ++
          [{ user := user, mailbox := "INBOX", content := content, declaredLen := msg.Len }] }
        sqlDeliverLoop sanitizeString sender rest buf be

/-- Go `SQLStorage.Deliver`, for a message reader that yields `msg`. -/
def sqlDeliver (sanitizeString : String → String) (be : Backend) (ctx : DeliveryContext)
    (msg : String) : Option String × Backend :=
  sqlDeliverLoop sanitizeString ctx.From ctx.To { unread := msg } be

/-! ## Predicates used to state invariants -/

/-- The tries counter of a record lies between one and `max_tries`. -/
def GoodMeta (q : Queue) (md : QueueMetadata) : Prop :=
  1 ≤ md.TriesCount ∧ md.TriesCount ≤ q.maxTries

/-- Every record ever written, and every record now in the store, is good. -/
def StoreInv (q : Queue) (w : World) : Prop :=
  (∀ md ∈ w.metaWrites, GoodMeta q md) ∧
  (∀ p ∈ w.metaFiles, ∀ md, p.2 = some md → GoodMeta q md)

/-- The target answers every call with a `PartialError` whose
`TemporaryFailed` list is non-empty. -/
def AlwaysTemporary (t : DeliveryTarget) : Prop :=
  ∀ n ctx body, ∃ pe, t n ctx body = .partialErr pe ∧ pe.TemporaryFailed ≠ []

/-- The message `id` is the only one in the queue: it has made `k` attempts,
all of them calls to the target, it is in the store with that count and it has
one entry in the wheel. -/
def Pending (id : String) (k : Nat) (w : World) : Prop :=
  w.fault = false ∧ (∀ n, w.canCreate n = true) ∧ w.calls.length = k ∧
  (∃ s, w.wheel = [s] ∧ s.id = id) ∧
  (∃ md c, w.metaFiles = [(id, some md)] ∧ md.ID = id ∧ md.Ctx = some c ∧
    md.TriesCount = (k : Int)) ∧
  (∃ b, w.bodyFiles = [(id, b)])

/-- The message has left the queue after `k` calls to the target. -/
def Finished (k : Nat) (w : World) : Prop :=
  w.fault = false ∧ w.calls.length = k ∧ w.wheel = [] ∧ w.metaFiles = [] ∧ w.bodyFiles = []

/-- World found by a restarted process relative to the world `w1` left by the
previous one: same store directory, same clock, read no earlier. -/
def Restarted (w1 w2 : World) : Prop :=
  w2.metaFiles = w1.metaFiles ∧ w2.bodyFiles = w1.bodyFiles ∧ w2.clock = w1.clock ∧
    w1.tick ≤ w2.tick

/-! ## Concrete inputs used to instantiate the theorems -/

/-- A context with two well-formed recipients and the option `local_only`. -/
def sampleCtx : DeliveryContext :=
  { DeliveryID := "m1", SrcAddr := none, SrcHostname := "client", OurHostname := "host",
    From := "s@y", To := ["a@host", "b@other"], Opts := [("local_only", "")], Ctx := [] }

/-- A context whose second recipient has no `@`. -/
def malformedCtx : DeliveryContext :=
  { DeliveryID := "m2", SrcAddr := none, SrcHostname := "client", OurHostname := "host",
    From := "s@y", To := ["a@host", "bother"], Opts := [], Ctx := [] }

/-- A context with the single recipient `a@x`. -/
def oneRcptCtx : DeliveryContext :=
  { DeliveryID := "m3", SrcAddr := none, SrcHostname := "client", OurHostname := "host",
    From := "s@y", To := ["a@x"], Opts := [], Ctx := [] }

/-- A target that reports a temporary failure of `a@x` on every call. -/
def tempFailTarget : DeliveryTarget :=
  fun _ _ _ => .partialErr
    { Successful := [], Failed := [], TemporaryFailed := ["a@x"], Errs := [] }

/-- A target that always succeeds. -/
def okTarget : DeliveryTarget := fun _ _ _ => .ok

/-- A clock that advances one second per reading. -/
def sampleClock : Nat → Int := fun n => (n : Int) * second

/-- The empty world with a writable store directory. -/
def emptyWorld : World := World.init sampleClock (fun _ => true)

/-- A context with the two recipients `a@x` and `b@x`. -/
def twoRcptCtx : DeliveryContext :=
  { DeliveryID := "m4", SrcAddr := none, SrcHostname := "client", OurHostname := "x",
    From := "s@y", To := ["a@x", "b@x"], Opts := [], Ctx := [] }

/-- A backend in which the users `a` and `b` exist and have an `INBOX`. -/
def twoUserBackend : Backend := { users := ["a", "b"], inboxes := ["a", "b"], messages := [] }

/-- The default queue with a given `max_tries` and the always-failing target. -/
def sampleQueue (maxTries : Int) : Queue := NewQueue "q" "/q" maxTries tempFailTarget

/-- The world after `oneRcptCtx` went through ingress of `sampleQueue 8` and
the worker took its entry from the wheel. -/
def dispatchedWorld : World :=
  { (Deliver (sampleQueue 8) oneRcptCtx (.stream "body") emptyWorld).2 with wheel := [] }

/-- The record that ingress stored for `oneRcptCtx`. -/
def storedMeta : QueueMetadata :=
  { ID := "m3"
    Ctx := some { oneRcptCtx with Ctx := [("id", "m3")] }
    Failed := []
    TriesCount := 1
    LastAttempt := 0 }

/-- A store that holds the metadata of `m3` but not its body file. -/
def noBodyWorld : World := { emptyWorld with metaFiles := [("m3", some storedMeta)] }

/-- The world after ingress and 23 retries with `max_tries = 30`: the stored
record has made 24 attempts. -/
def overflowWorld : World :=
  (workerStep (sampleQueue 30))^[23]
    (Deliver (sampleQueue 30) oneRcptCtx (.stream "body") emptyWorld).2

end Maddy


/-! # Theorems -/

namespace Maddy

/-! ## Splitting -/

theorem splitOnChar_ne_nil (sep : Char) (l : List Char) : splitOnChar sep l ≠ [] := by
  induction l with
  | nil => simp [splitOnChar]
  | cons c cs ih =>
    unfold splitOnChar
    split
    · simp
    · split <;> simp

theorem splitOnChar_length (sep : Char) (l : List Char) :
    (splitOnChar sep l).length = l.count sep + 1 := by
  induction l with
  | nil => simp [splitOnChar]
  | cons c cs ih =>
    unfold splitOnChar
    by_cases h : c = sep
    · subst h
      simp [ih]
    · have hne : (c == sep) = false := by simpa using h
      rw [if_neg h, List.count_cons, hne]
      cases hs : splitOnChar sep cs with
      | nil => exact absurd hs (splitOnChar_ne_nil sep cs)
      | cons p ps =>
        rw [hs] at ih
        simpa using ih

theorem splitOnChar_no_sep (sep : Char) (l : List Char) (h : l.count sep = 0) :
    splitOnChar sep l = [l] := by
  induction l with
  | nil => simp [splitOnChar]
  | cons c cs ih =>
    have hc : c ≠ sep := by
      intro e
      subst e
      simp at h
    have hne : (c == sep) = false := by simpa using hc
    rw [List.count_cons, hne] at h
    unfold splitOnChar
    rw [if_neg hc, ih (by simpa using h)]

theorem splitOnChar_second (sep : Char) (l : List Char) (h : l.count sep = 1) :
    (splitOnChar sep l).getD 1 [] = (l.dropWhile (fun c => c != sep)).drop 1 := by
  induction l with
  | nil => simp at h
  | cons c cs ih =>
    unfold splitOnChar
    by_cases hc : c = sep
    · subst hc
      have h0 : cs.count c = 0 := by simpa using h
      rw [if_pos rfl, splitOnChar_no_sep c cs h0]
      simp [List.dropWhile]
    · have hne : (c == sep) = false := by simpa using hc
      rw [List.count_cons, hne] at h
      rw [if_neg hc]
      have ih1 := ih (by simpa using h)
      cases hs : splitOnChar sep cs with
      | nil => exact absurd hs (splitOnChar_ne_nil sep cs)
      | cons p ps =>
        rw [hs] at ih1
        have hd : (c != sep) = true := by simpa using hc
        simp only [List.dropWhile, hd]
        rw [← ih1]
        cases ps <;> simp

theorem Split_length (r : String) : (Split r '@').length = atCount r + 1 := by
  simp [Split, atCount, splitOnChar_length]

theorem Split_second (r : String) (h : atCount r = 1) :
    (Split r '@').getD 1 "" = specDomain r := by
  have hl := splitOnChar_length '@' r.data
  have h2 := splitOnChar_second '@' r.data h
  unfold atCount at h
  unfold Split specDomain
  rw [← h2]
  cases hs : splitOnChar '@' r.data with
  | nil => exact absurd hs (splitOnChar_ne_nil _ _)
  | cons p ps =>
    rw [hs, h] at hl
    cases ps with
    | nil => simp at hl
    | cons p2 ps2 => simp

/-! ## Recipient filter -/

theorem hostname_eq_spec (ctx : DeliveryContext) :
    (if mapIndex ctx.Opts "hostname" = "" then ctx.OurHostname
      else mapIndex ctx.Opts "hostname") = specHostname ctx := by
  unfold mapIndex specHostname
  cases ctx.Opts.lookup "hostname" with
  | none => simp
  | some v => simp

theorem filterLoop_cons_good (ctx : DeliveryContext) (rcpt : String) (rest acc : List String)
    (h : atCount rcpt = 1) :
    filterLoop ctx (rcpt :: rest) acc =
      filterLoop ctx rest (if specKeeps ctx rcpt then acc ++ [rcpt] else acc) := by
  have hl : (Split rcpt '@').length = 2 := by rw [Split_length, h]
  have hd := Split_second rcpt h
  have hh := hostname_eq_spec ctx
  rw [filterLoop]
  simp only [hl, ne_eq, not_true_eq_false, if_false, hd, hh]
  unfold specKeeps
  cases h1 : mapHas ctx.Opts "local_only" <;> cases h2 : mapHas ctx.Opts "remote_only" <;>
    by_cases h3 : specDomain rcpt = specHostname ctx <;> simp [h3]

theorem filterLoop_cons_bad (ctx : DeliveryContext) (rcpt : String) (rest acc : List String)
    (h : atCount rcpt ≠ 1) :
    filterLoop ctx (rcpt :: rest) acc =
      .error ("malformed address " ++ rcpt ++ ": missing domain part") := by
  have hl : (Split rcpt '@').length ≠ 2 := by
    rw [Split_length]
    omega
  rw [filterLoop]
  simp only [hl, ne_eq, not_false_eq_true, if_true]

theorem filterLoop_good (ctx : DeliveryContext) (l : List String) :
    ∀ acc : List String, (∀ r ∈ l, atCount r = 1) →
      filterLoop ctx l acc = .ok (acc ++ l.filter (specKeeps ctx)) := by
  induction l with
  | nil => intro acc _; simp [filterLoop]
  | cons r rest ih =>
    intro acc h
    rw [filterLoop_cons_good ctx r rest acc (h r (by simp))]
    rw [ih _ (fun x hx => h x (by simp [hx]))]
    cases hk : specKeeps ctx r <;> simp [List.filter, hk]

theorem filterLoop_ok_inv (ctx : DeliveryContext) (l : List String) :
    ∀ acc res : List String, filterLoop ctx l acc = .ok res → ∀ r ∈ l, atCount r = 1 := by
  induction l with
  | nil => intro _ _ _ r hr; simp at hr
  | cons x rest ih =>
    intro acc res h r hr
    by_cases hx : atCount x = 1
    · rw [filterLoop_cons_good ctx x rest acc hx] at h
      rcases List.mem_cons.mp hr with e | e
      · rw [e]; exact hx
      · exact ih _ _ h r e
    · rw [filterLoop_cons_bad ctx x rest acc hx] at h
      cases h

theorem filterLoop_bad (ctx : DeliveryContext) (l : List String) :
    ∀ acc : List String, (∃ r ∈ l, atCount r ≠ 1) → ∃ e, filterLoop ctx l acc = .error e := by
  intro acc h
  cases hres : filterLoop ctx l acc with
  | error e => exact ⟨e, rfl⟩
  | ok res =>
    obtain ⟨r, hr, hne⟩ := h
    exact absurd (filterLoop_ok_inv ctx l acc res hres r hr) hne

theorem specKeeps_congr (ctx : DeliveryContext) (rs : List String) :
    specKeeps { ctx with To := rs } = specKeeps ctx := rfl

theorem filterLoop_congr (ctx : DeliveryContext) (rs : List String) (l : List String) :
    ∀ acc, filterLoop { ctx with To := rs } l acc = filterLoop ctx l acc := by
  induction l with
  | nil => intro acc; simp [filterLoop]
  | cons x rest ih =>
    intro acc
    rw [filterLoop, filterLoop]
    simp only [ih]


/-- C2: when every recipient contains exactly one at-sign, `filterRcpts`
succeeds and the new recipient list is the old one, in order, restricted to
the recipients the specification retains (no `local_only` or domain equal to
the hostname, and no `remote_only` or domain different from it); only the
recipient list changes; the domain of `local@domain` is `domain`. -/
theorem filterRcpts_refines_spec (ctx : DeliveryContext)
    (h : ∀ r ∈ ctx.To, atCount r = 1) :
    filterRcpts ctx = ({ ctx with To := ctx.To.filter (specKeeps ctx) }, none) ∧
    (∀ loc dom : String, atCount loc = 0 → specDomain (loc ++ "@" ++ dom) = dom) := by
  constructor
  · unfold filterRcpts
    rw [filterLoop_good ctx ctx.To [] h]
    simp
  · intro loc dom hloc
    unfold atCount at hloc
    have hall : ∀ c ∈ loc.data, (c != '@') = true := by
      intro c hc
      have := List.count_eq_zero.mp hloc
      simp only [bne_iff_ne, ne_eq]
      intro e
      exact this (e ▸ hc)
    unfold specDomain
    have hd : (loc ++ "@" ++ dom).data = loc.data ++ ('@' :: dom.data) := by
      simp [String.data_append]
    rw [hd, List.dropWhile_append_of_pos hall]
    simp [List.dropWhile]

/-- Instance of C2 at `sampleCtx`: `local_only` with hostname `host` keeps
`a@host` and drops `b@other`. -/
theorem filterRcpts_refines_spec_witness :
    (∀ r ∈ sampleCtx.To, atCount r = 1) ∧
    (filterRcpts sampleCtx).1.To = ["a@host"] ∧ (filterRcpts sampleCtx).2 = none := by
  have h : ∀ r ∈ sampleCtx.To, atCount r = 1 := by decide
  refine ⟨h, ?_, ?_⟩
  · rw [(filterRcpts_refines_spec sampleCtx h).1]
    decide
  · rw [(filterRcpts_refines_spec sampleCtx h).1]

/-- C3: when some recipient has no at-sign, `filterRcpts` returns an error and
leaves the context (so its recipient list) as it was, and `Queue.Deliver`
returns that error with the world unchanged: no call to the target, no write
to the store, no entry added to the wheel. -/
theorem malformed_rejected (q : Queue) (ctx : DeliveryContext) (msg : MsgReader) (w : World)
    (h : ∃ r ∈ ctx.To, atCount r = 0) :
    ∃ e, filterRcpts ctx = (ctx, some e) ∧ Deliver q ctx msg w = (some e, w) := by
  obtain ⟨r, hr, h0⟩ := h
  obtain ⟨e, he⟩ := filterLoop_bad ctx ctx.To [] ⟨r, hr, by omega⟩
  refine ⟨e, ?_, ?_⟩
  · simp [filterRcpts, he]
  · simp [Deliver, filterRcpts, he]

/-- Instance of C3 at `malformedCtx`, whose recipient `bother` has no at-sign. -/
theorem malformed_rejected_witness :
    (∃ r ∈ malformedCtx.To, atCount r = 0) ∧
    ∃ e, filterRcpts malformedCtx = (malformedCtx, some e) ∧
      Deliver (NewQueue "q" "/q" 8 okTarget) malformedCtx (.stream "body") emptyWorld
        = (some e, emptyWorld) :=
  have h : ∃ r ∈ malformedCtx.To, atCount r = 0 := ⟨"bother", by decide, by decide⟩
  ⟨h, malformed_rejected (NewQueue "q" "/q" 8 okTarget) malformedCtx (.stream "body") emptyWorld h⟩

/-- C9: `filterRcpts` is idempotent: applied to the context it produced, it
gives the same context and the same outcome (success stays success with the
same recipient list; a rejection leaves the context untouched and repeats). -/
theorem filterRcpts_idempotent (ctx : DeliveryContext) :
    filterRcpts (filterRcpts ctx).1 = filterRcpts ctx := by
  cases hres : filterLoop ctx ctx.To [] with
  | error e =>
    have h1 : filterRcpts ctx = (ctx, some e) := by simp [filterRcpts, hres]
    rw [h1]
    exact h1
  | ok res =>
    have hall := filterLoop_ok_inv ctx ctx.To [] res hres
    have hres2 := filterLoop_good ctx ctx.To [] hall
    rw [hres] at hres2
    have hres3 : res = ctx.To.filter (specKeeps ctx) := by
      simpa using hres2
    have h1 : filterRcpts ctx = ({ ctx with To := res }, none) := by simp [filterRcpts, hres]
    rw [h1]
    have hall2 : ∀ r ∈ res, atCount r = 1 := by
      intro r hr
      rw [hres3] at hr
      exact hall r (List.mem_filter.mp hr).1
    have h2 := filterLoop_good ctx res [] hall2
    have h3 : filterLoop { ctx with To := res } res [] = .ok res := by
      rw [filterLoop_congr, h2, hres3]
      simp
    simp [filterRcpts, h3]

/-- C1: with a non-nil context, `attemptDelivery` calls the target exactly
once and classifies its answer: ok gives no retry, no recipients and leaves
`Failed` alone; a `PartialError` appends its `Failed` to the record, returns
its `TemporaryFailed` and asks for a retry exactly when that list is
non-empty; any other error appends all current recipients and gives no
retry. -/
theorem attemptDelivery_classifies (q : Queue) (md : QueueMetadata) (ctx : DeliveryContext)
    (body : Option String) (w : World) (h : md.Ctx = some ctx) :
    ∃ sr nr md1 w1,
      attemptDelivery q md body w = some ((sr, nr), md1, w1) ∧
      w1.calls = w.calls ++ [({ ctx with Ctx := mapSet ctx.Ctx "id" md.ID }, body)] ∧
      (q.Target w.calls.length { ctx with Ctx := mapSet ctx.Ctx "id" md.ID } body = .ok →
        sr = false ∧ nr = [] ∧ md1.Failed = md.Failed) ∧
      (∀ pe, q.Target w.calls.length { ctx with Ctx := mapSet ctx.Ctx "id" md.ID } body
          = .partialErr pe →
        md1.Failed = md.Failed ++ pe.Failed ∧ nr = pe.TemporaryFailed ∧
        (sr = true ↔ pe.TemporaryFailed ≠ [])) ∧
      (∀ e, q.Target w.calls.length { ctx with Ctx := mapSet ctx.Ctx "id" md.ID } body
          = .otherErr e →
        sr = false ∧ nr = [] ∧ md1.Failed = md.Failed ++ ctx.To) := by
  unfold attemptDelivery
  rw [h]
  cases hres : q.Target w.calls.length { ctx with Ctx := mapSet ctx.Ctx "id" md.ID } body with
  | ok =>
    simp only [hres]
    exact ⟨_, _, _, _, rfl, rfl, by simp, by simp, by simp⟩
  | partialErr pe =>
    simp only [hres]
    refine ⟨_, _, _, _, rfl, rfl, by simp, ?_, by simp⟩
    intro pe1 hpe
    cases hpe
    simp
  | otherErr e =>
    simp only [hres]
    exact ⟨_, _, _, _, rfl, rfl, by simp, by simp, by simp⟩

/-- Instance of C1: a first attempt at `oneRcptCtx` against a target that
reports a temporary failure asks for a retry of `a@x`. -/
theorem attemptDelivery_classifies_witness :
    (({ ID := "m3", Ctx := some oneRcptCtx, Failed := [], TriesCount := 1, LastAttempt := 0 } :
        QueueMetadata).Ctx = some oneRcptCtx) ∧
    ∃ sr nr md1 w1,
      attemptDelivery (NewQueue "q" "/q" 8 tempFailTarget)
        { ID := "m3", Ctx := some oneRcptCtx, Failed := [], TriesCount := 1, LastAttempt := 0 }
        (some "body") emptyWorld = some ((sr, nr), md1, w1) ∧
      w1.calls.length = 1 ∧ sr = true ∧ nr = ["a@x"] ∧ md1.Failed = [] := by
  refine ⟨rfl, ?_⟩
  obtain ⟨sr, nr, md1, w1, h1, h2, _, h4, _⟩ :=
    attemptDelivery_classifies (NewQueue "q" "/q" 8 tempFailTarget)
      { ID := "m3", Ctx := some oneRcptCtx, Failed := [], TriesCount := 1, LastAttempt := 0 }
      oneRcptCtx (some "body") emptyWorld rfl
  have h5 := h4 { Successful := [], Failed := [], TemporaryFailed := ["a@x"], Errs := [] } rfl
  refine ⟨sr, nr, md1, w1, h1, ?_, ?_, h5.2.1, ?_⟩
  · rw [h2]; rfl
  · exact h5.2.2.mpr (by simp)
  · rw [h5.1]; rfl


/-! ## Bounds on the tries counter -/

theorem int64Wrap_of_range (x : Int) (h1 : -(2 ^ 63) ≤ x) (h2 : x < 2 ^ 63) :
    int64Wrap x = x := by
  unfold int64Wrap
  rw [Int.emod_eq_of_lt (by omega) (by omega)]
  omega

theorem attemptDelivery_store (q : Queue) (md md1 : QueueMetadata) (body : Option String)
    (w w1 : World) (r : Bool × List String)
    (h : attemptDelivery q md body w = some (r, md1, w1)) :
    w1.metaFiles = w.metaFiles ∧ w1.metaWrites = w.metaWrites ∧
      md1.TriesCount = md.TriesCount := by
  unfold attemptDelivery at h
  split at h
  · cases h
  · dsimp only at h
    split at h <;>
    · simp only [Option.some.injEq, Prod.mk.injEq] at h
      obtain ⟨_, h2, h3⟩ := h
      subst h2 h3
      simp

theorem StoreInv_removeFromDisk (q : Queue) (id : String) (w : World) (h : StoreInv q w) :
    StoreInv q (removeFromDisk id w) := by
  refine ⟨h.1, ?_⟩
  intro p hp md hmd
  exact h.2 p (List.mem_filter.mp hp).1 md hmd

theorem StoreInv_updateMetadataOnDisk (q : Queue) (md : QueueMetadata) (w : World)
    (h : StoreInv q w) (hg : GoodMeta q md) :
    StoreInv q (updateMetadataOnDisk md w).2.2 ∧
      (updateMetadataOnDisk md w).1.TriesCount = md.TriesCount := by
  unfold updateMetadataOnDisk
  split
  · split
    · exact ⟨h, rfl⟩
    · refine ⟨⟨?_, ?_⟩, rfl⟩
      · intro x hx
        simp only [List.mem_append, List.mem_singleton] at hx
        rcases hx with hx | hx
        · exact h.1 x hx
        · subst hx
          exact hg
      · intro p hp x hx
        simp only [List.mem_cons] at hp
        rcases hp with hp | hp
        · subst hp
          simp only [Option.some.injEq] at hx
          subst hx
          exact hg
        · exact h.2 p (List.mem_filter.mp hp).1 x hx
  · exact ⟨h, rfl⟩

theorem StoreInv_storeNewMessage (q : Queue) (md : QueueMetadata) (body : String) (w : World)
    (h : StoreInv q w) (hg : GoodMeta q md) :
    StoreInv q (storeNewMessage md body w).2.2 := by
  unfold storeNewMessage
  split
  · have hw : StoreInv q
        { w with bodyFiles := (md.ID, body) :: w.bodyFiles.filter (fun p => p.1 != md.ID) } := h
    have hu := (StoreInv_updateMetadataOnDisk q md _ hw hg).1
    dsimp only
    split
    · rename_i md2 w2 heq
      rw [heq] at hu
      exact hu
    · rename_i md2 w2 heq
      rw [heq] at hu
      exact hu
  · exact h

theorem lookup_mem {β : Type} (id : String) (l : List (String × β)) (v : β)
    (h : l.lookup id = some v) : (id, v) ∈ l := by
  induction l with
  | nil => simp at h
  | cons p rest ih =>
    obtain ⟨k, x⟩ := p
    rw [List.lookup_cons] at h
    by_cases hk : id == k
    · simp only [hk] at h
      have e : id = k := by simpa using hk
      cases h
      simp [e]
    · simp only [hk] at h
      exact List.mem_cons_of_mem _ (ih h)

theorem openMessage_good (q : Queue) (id : String) (w : World) (h : StoreInv q w) :
    (openMessage id w).1 = zeroMeta ∨ GoodMeta q (openMessage id w).1 := by
  unfold openMessage readMessageMeta
  cases hl : w.metaFiles.lookup id with
  | none => simp
  | some o =>
    cases o with
    | none => simp
    | some md =>
      right
      have hg := h.2 _ (lookup_mem id _ _ hl) md rfl
      cases w.bodyFiles.lookup id <;> simpa using hg

theorem StoreInv_retryDelivery (q : Queue) (id : String) (w : World)
    (hmax : q.maxTries < 2 ^ 63) (h : StoreInv q w) : StoreInv q (retryDelivery q id w) := by
  have hopen := openMessage_good q id w h
  unfold retryDelivery
  generalize openMessage id w = om at hopen
  obtain ⟨md, body, e⟩ := om
  dsimp only at hopen ⊢
  cases hatt : attemptDelivery q md body w with
  | none => exact h
  | some res =>
    obtain ⟨⟨sr, nr⟩, md1, w1⟩ := res
    have hs := attemptDelivery_store q md md1 body w w1 (sr, nr) hatt
    have h1 : StoreInv q w1 := by
      unfold StoreInv
      rw [hs.1, hs.2.1]
      exact h
    have hmd : GoodMeta q md := by
      rcases hopen with hz | hg
      · rw [hz] at hatt
        simp [attemptDelivery, zeroMeta] at hatt
      · exact hg
    dsimp only
    split
    · exact StoreInv_removeFromDisk q id w1 h1
    · split
      · exact h1
      · split
        · exact StoreInv_removeFromDisk q id w1 h1
        · rename_i ctx hctx hne
          have hne1 : md1.TriesCount ≠ q.maxTries := fun e => hne (Or.inl e)
          have hg1 : 1 ≤ md1.TriesCount ∧ md1.TriesCount ≤ q.maxTries := by
            rw [hs.2.2]
            exact hmd
          have hwrap : int64Wrap (md1.TriesCount + 1) = md1.TriesCount + 1 :=
            int64Wrap_of_range _ (by omega) (by omega)
          unfold timeNow
          dsimp only
          rw [hwrap]
          exact (StoreInv_updateMetadataOnDisk q _ _
            (show StoreInv q { w1 with tick := w1.tick + 1 } from h1)
            ⟨by show 1 ≤ md1.TriesCount + 1; omega,
             by show md1.TriesCount + 1 ≤ q.maxTries; omega⟩).1

theorem StoreInv_deliverTask (q : Queue) (id : String) (ctx : DeliveryContext) (body : String)
    (w : World) (hmin : 1 ≤ q.maxTries) (h : StoreInv q w) :
    StoreInv q (deliverTask q id ctx body w) := by
  unfold deliverTask timeNow
  dsimp only
  cases hatt : attemptDelivery q
      { ID := id, Ctx := some ctx, Failed := [], TriesCount := 1, LastAttempt := w.clock w.tick }
      (some body) { w with tick := w.tick + 1 } with
  | none => exact h
  | some res =>
    obtain ⟨⟨sr, nr⟩, md1, w1⟩ := res
    have hs := attemptDelivery_store q _ md1 _ _ w1 (sr, nr) hatt
    have h1 : StoreInv q w1 := by
      unfold StoreInv
      rw [hs.1, hs.2.1]
      exact h
    dsimp only
    split
    · exact h1
    · split
      · exact h1
      · rename_i ctx1 hctx
        have hst := StoreInv_storeNewMessage q
          { md1 with Ctx := some { ctx1 with To := nr } } body w1 h1
          ⟨by show 1 ≤ md1.TriesCount; rw [hs.2.2], by show md1.TriesCount ≤ q.maxTries; rw [hs.2.2]; exact hmin⟩
        split
        · rename_i md2 w2 heq
          rw [heq] at hst
          exact hst
        · rename_i md2 w2 heq
          rw [heq] at hst
          exact hst

theorem StoreInv_Deliver (q : Queue) (ctx : DeliveryContext) (msg : MsgReader)
    (w : World) (hmin : 1 ≤ q.maxTries) (h : StoreInv q w) :
    StoreInv q (Deliver q ctx msg w).2 := by
  unfold Deliver
  split
  · exact h
  · split
    · exact h
    · dsimp only
      split
      · exact h
      · exact StoreInv_deliverTask q _ _ _ w hmin h
      · exact StoreInv_deliverTask q _ _ _ w hmin h

theorem StoreInv_runOps (q : Queue) (ops : List Op) (hmin : 1 ≤ q.maxTries)
    (hmax : q.maxTries < 2 ^ 63) :
    ∀ w : World, StoreInv q w → StoreInv q (runOps q w ops) := by
  induction ops with
  | nil => intro w h; exact h
  | cons op rest ih =>
    intro w h
    show StoreInv q (runOps q (stepOp q w op) rest)
    apply ih
    unfold stepOp
    split
    · exact h
    · cases op with
      | ingress ctx msg => exact StoreInv_Deliver q ctx msg w hmin h
      | retry id => exact StoreInv_retryDelivery q id w hmax h

/-- C5: with `max_tries` at least one (and an `int`), after any sequence of
ingress and retry steps started on an empty store, every metadata version that
was written to the store (the initial record of `Deliver` and each rewrite of
`retryDelivery`) has a tries counter between one and `max_tries`. -/
theorem tries_count_bounds (q : Queue) (clock : Nat → Int) (canCreate : String → Bool)
    (ops : List Op) (hmin : 1 ≤ q.maxTries) (hmax : q.maxTries < 2 ^ 63) :
    ∀ md ∈ (runOps q (World.init clock canCreate) ops).metaWrites,
      1 ≤ md.TriesCount ∧ md.TriesCount ≤ q.maxTries := by
  have h0 : StoreInv q (World.init clock canCreate) := by
    constructor
    · intro md hmd
      simp [World.init] at hmd
    · intro p hp
      simp [World.init] at hp
  exact (StoreInv_runOps q ops hmin hmax _ h0).1

/-- Instance of C5: with `max_tries = 3`, an ingress and three retries against
a target that always fails temporarily write the versions 1, 2 and 3. -/
theorem tries_count_bounds_witness :
    (1 : Int) ≤ (NewQueue "q" "/q" 3 tempFailTarget).maxTries ∧
    (NewQueue "q" "/q" 3 tempFailTarget).maxTries < 2 ^ 63 ∧
    ((runOps (NewQueue "q" "/q" 3 tempFailTarget) (World.init sampleClock (fun _ => true))
        [.ingress oneRcptCtx (.stream "body"), .retry "m3", .retry "m3", .retry "m3"]).metaWrites.map
      (fun md => md.TriesCount) = [1, 2, 3]) ∧
    ∀ md ∈ (runOps (NewQueue "q" "/q" 3 tempFailTarget) (World.init sampleClock (fun _ => true))
        [.ingress oneRcptCtx (.stream "body"), .retry "m3", .retry "m3", .retry "m3"]).metaWrites,
      1 ≤ md.TriesCount ∧ md.TriesCount ≤ (NewQueue "q" "/q" 3 tempFailTarget).maxTries :=
  ⟨by decide, by decide, by decide,
    tries_count_bounds (NewQueue "q" "/q" 3 tempFailTarget) sampleClock (fun _ => true)
      [.ingress oneRcptCtx (.stream "body"), .retry "m3", .retry "m3", .retry "m3"]
      (by decide) (by decide)⟩

/-! ## A retry that meets a temporary failure -/

theorem retryDelivery_temporary (q : Queue) (id : String) (w : World) (md : QueueMetadata)
    (c : DeliveryContext) (b : String) (pe : PartialError)
    (hm : w.metaFiles.lookup id = some (some md)) (hb : w.bodyFiles.lookup id = some b)
    (hc : md.Ctx = some c)
    (ht : q.Target w.calls.length { c with Ctx := mapSet c.Ctx "id" md.ID } (some b)
      = .partialErr pe)
    (hT : pe.TemporaryFailed ≠ []) (hcan : w.canCreate (md.ID ++ ".meta") = true) :
    retryDelivery q id w =
      if md.TriesCount = q.maxTries then
        removeFromDisk id
          { w with calls := w.calls ++ [({ c with Ctx := mapSet c.Ctx "id" md.ID }, some b)] }
      else
        { w with
          calls := w.calls ++ [({ c with Ctx := mapSet c.Ctx "id" md.ID }, some b)]
          tick := w.tick + 3
          metaFiles :=
            (md.ID, some
              { ID := md.ID
                Ctx := some
                  (if isTCPAddr c.SrcAddr then
                    { c with Ctx := mapSet c.Ctx "id" md.ID, To := pe.TemporaryFailed }
                  else
                    { c with Ctx := mapSet c.Ctx "id" md.ID, To := pe.TemporaryFailed,
                             SrcAddr := none })
                Failed := md.Failed ++ pe.Failed
                TriesCount := int64Wrap (md.TriesCount + 1)
                LastAttempt := w.clock w.tick }) ::
              w.metaFiles.filter (fun p => p.1 != md.ID)
          metaWrites := w.metaWrites ++
            [{ ID := md.ID
               Ctx := some
                  (if isTCPAddr c.SrcAddr then
                    { c with Ctx := mapSet c.Ctx "id" md.ID, To := pe.TemporaryFailed }
                  else
                    { c with Ctx := mapSet c.Ctx "id" md.ID, To := pe.TemporaryFailed,
                             SrcAddr := none })
               Failed := md.Failed ++ pe.Failed
               TriesCount := int64Wrap (md.TriesCount + 1)
               LastAttempt := w.clock w.tick }]
          wheel := w.wheel ++
            [{ due := w.clock (w.tick + 1) + retryDelay q (int64Wrap (md.TriesCount + 1))
               after := retryDelay q (int64Wrap (md.TriesCount + 1))
               id := id }] } := by
  have hT2 : ¬ pe.TemporaryFailed.length = 0 := by
    intro h0
    exact hT (List.length_eq_zero.mp h0)
  simp only [retryDelivery, openMessage, readMessageMeta, hm, hb, attemptDelivery, hc, ht]
  by_cases hk : md.TriesCount = q.maxTries
  · simp [hk, hT2]
  · simp [hk, hT2, updateMetadataOnDisk, timeNow, hcan]

/-! ## Number of attempts under permanent temporary failure -/

theorem workerStep_pending (q : Queue) (id : String) (k : Nat) (w : World)
    (ht : AlwaysTemporary q.Target) (h : Pending id k w) :
    ((k : Int) = q.maxTries → Finished (k + 1) (workerStep q w)) ∧
    ((k : Int) ≠ q.maxTries → (k : Int) + 1 < 2 ^ 63 → Pending id (k + 1) (workerStep q w)) := by
  obtain ⟨hf, hcan, hcalls, ⟨s, hs, hsid⟩, ⟨md, c, hmf, hid, hc, htc⟩, ⟨b, hbf⟩⟩ := h
  obtain ⟨pe, hpe, hT⟩ := ht w.calls.length { c with Ctx := mapSet c.Ctx "id" md.ID } (some b)
  have hstep : workerStep q w = retryDelivery q id { w with wheel := [] } := by
    simp [workerStep, hf, hs, earliest, hsid]
  have hr := retryDelivery_temporary q id { w with wheel := [] } md c b pe
    (by simp [hmf]) (by simp [hbf]) hc hpe hT (hcan _)
  rw [hstep, hr]
  constructor
  · intro hk
    rw [if_pos (by rw [htc]; exact hk)]
    simp [Finished, removeFromDisk, hf, hcalls, hmf, hbf]
  · intro hk hlt
    rw [if_neg (by rw [htc]; exact hk)]
    have hw : int64Wrap (md.TriesCount + 1) = ((k + 1 : Nat) : Int) := by
      rw [int64Wrap_of_range _ (by omega) (by omega), htc]
      push_cast
      rfl
    have hfilt : List.filter (fun (p : String × Option QueueMetadata) => p.1 != md.ID)
        [(id, some md)] = [] := by simp [hid]
    unfold Pending
    refine ⟨hf, hcan, by simp [hcalls], ⟨_, rfl, rfl⟩, ?_, ⟨b, hbf⟩⟩
    dsimp only
    rw [hmf, hfilt, hid]
    exact ⟨_, _, rfl, rfl, rfl, hid ▸ hw⟩

theorem runWorker_finished (q : Queue) (k : Nat) (w : World) (h : Finished k w) :
    ∀ fuel, runWorker q fuel w = w := by
  intro fuel
  cases fuel with
  | zero => rfl
  | succ n => simp [runWorker, h.1, h.2.2.1, earliest]

theorem runWorker_pending (q : Queue) (id : String) (ht : AlwaysTemporary q.Target)
    (hmax : q.maxTries < 2 ^ 63) :
    ∀ (d k : Nat) (w : World), Pending id k w → q.maxTries = (k : Int) + d →
      ∀ fuel, d + 1 ≤ fuel → Finished (k + d + 1) (runWorker q fuel w) := by
  intro d
  induction d with
  | zero =>
    intro k w h hN fuel hfuel
    obtain ⟨n, rfl⟩ : ∃ n, fuel = n + 1 := ⟨fuel - 1, by omega⟩
    have hfin := (workerStep_pending q id k w ht h).1 (by rw [hN]; simp)
    obtain ⟨hf, _, _, ⟨s, hs, _⟩, _, _⟩ := h
    have : runWorker q (n + 1) w = runWorker q n (workerStep q w) := by
      simp [runWorker, hf, hs, earliest]
    rw [this, runWorker_finished q _ _ hfin]
    exact hfin
  | succ d ih =>
    intro k w h hN fuel hfuel
    obtain ⟨n, rfl⟩ : ∃ n, fuel = n + 1 := ⟨fuel - 1, by omega⟩
    have hp := (workerStep_pending q id k w ht h).2 (by rw [hN]; push_cast; omega) (by omega)
    obtain ⟨hf, _, _, ⟨s, hs, _⟩, _, _⟩ := h
    have : runWorker q (n + 1) w = runWorker q n (workerStep q w) := by
      simp [runWorker, hf, hs, earliest]
    rw [this]
    have := ih (k + 1) _ hp (by rw [hN]; push_cast; omega) n (by omega)
    have e : k + 1 + d + 1 = k + (d + 1) + 1 := by omega
    rw [e] at this
    exact this

theorem deliverTask_temporary (q : Queue) (id : String) (c : DeliveryContext) (b : String)
    (w : World) (pe : PartialError)
    (ht : q.Target w.calls.length { c with Ctx := mapSet c.Ctx "id" id } (some b)
      = .partialErr pe)
    (hT : pe.TemporaryFailed ≠ []) (hcanB : w.canCreate id = true)
    (hcanM : w.canCreate (id ++ ".meta") = true) :
    deliverTask q id c b w =
      { w with
        calls := w.calls ++ [({ c with Ctx := mapSet c.Ctx "id" id }, some b)]
        tick := w.tick + 3
        bodyFiles := (id, b) :: w.bodyFiles.filter (fun p => p.1 != id)
        metaFiles :=
          (id, some
            { ID := id
              Ctx := some
                (if isTCPAddr c.SrcAddr then
                  { c with Ctx := mapSet c.Ctx "id" id, To := pe.TemporaryFailed }
                else
                  { c with Ctx := mapSet c.Ctx "id" id, To := pe.TemporaryFailed,
                           SrcAddr := none })
              Failed := pe.Failed
              TriesCount := 1
              LastAttempt := w.clock w.tick }) ::
            w.metaFiles.filter (fun p => p.1 != id)
        metaWrites := w.metaWrites ++
          [{ ID := id
             Ctx := some
                (if isTCPAddr c.SrcAddr then
                  { c with Ctx := mapSet c.Ctx "id" id, To := pe.TemporaryFailed }
                else
                  { c with Ctx := mapSet c.Ctx "id" id, To := pe.TemporaryFailed,
                           SrcAddr := none })
             Failed := pe.Failed
             TriesCount := 1
             LastAttempt := w.clock w.tick }]
        wheel := w.wheel ++
          [{ due := w.clock (w.tick + 2) + q.initialRetryTime
             after := q.initialRetryTime
             id := id }] } := by
  have hT2 : ¬ pe.TemporaryFailed.length = 0 := by
    intro h0
    exact hT (List.length_eq_zero.mp h0)
  simp [deliverTask, timeNow, attemptDelivery, ht, hT2, storeNewMessage, updateMetadataOnDisk,
    hcanB, hcanM]

theorem Deliver_pending (q : Queue) (ctx : DeliveryContext) (msg : MsgReader)
    (clock : Nat → Int) (ht : AlwaysTemporary q.Target) (hmsg : msg ≠ .failing)
    (hok : (filterRcpts ctx).2 = none) (hne : (filterRcpts ctx).1.To ≠ []) :
    Pending ctx.DeliveryID 1 (Deliver q ctx msg (World.init clock (fun _ => true))).2 ∧
    ∃ s, (Deliver q ctx msg (World.init clock (fun _ => true))).2.wheel = [s] ∧
      s.after = q.initialRetryTime := by
  have hid : (filterRcpts ctx).1.DeliveryID = ctx.DeliveryID := by
    unfold filterRcpts
    split <;> rfl
  obtain ⟨data, hdata⟩ : ∃ data, Deliver q ctx msg (World.init clock (fun _ => true)) =
      (none, deliverTask q ctx.DeliveryID (filterRcpts ctx).1 data
        (World.init clock (fun _ => true))) := by
    unfold Deliver
    generalize filterRcpts ctx = fr at hok hne hid
    obtain ⟨c1, e⟩ := fr
    dsimp only at hok hne hid
    subst hok
    have : ¬ c1.To.length = 0 := fun h0 => hne (List.length_eq_zero.mp h0)
    cases msg with
    | failing => exact absurd rfl hmsg
    | seekable data => exact ⟨data, by simp [this, hid]⟩
    | stream data => exact ⟨data, by simp [this, hid]⟩
  obtain ⟨pe, hpe, hT⟩ := ht 0
    { (filterRcpts ctx).1 with Ctx := mapSet (filterRcpts ctx).1.Ctx "id" ctx.DeliveryID }
    (some data)
  rw [hdata]
  dsimp only
  rw [deliverTask_temporary q ctx.DeliveryID (filterRcpts ctx).1 data
    (World.init clock (fun _ => true)) pe hpe hT rfl rfl]
  unfold Pending
  simp [World.init]

/-- C4, as the code behaves: with `max_tries = n ≥ 1`, a message with a
non-empty filtered recipient list and a target that fails temporarily on every
attempt, `Deliver` makes one attempt and writes the message to the store, and
the worker then brings the number of calls to the target to `n + 1` (not `n`)
before the message leaves the store and the wheel. -/
theorem attempts_exceed_max_tries (q : Queue) (ctx : DeliveryContext) (msg : MsgReader)
    (clock : Nat → Int) (n : Nat) (hn : 1 ≤ n) (hq : q.maxTries = (n : Int))
    (hmax : q.maxTries < 2 ^ 63) (ht : AlwaysTemporary q.Target) (hmsg : msg ≠ .failing)
    (hok : (filterRcpts ctx).2 = none) (hne : (filterRcpts ctx).1.To ≠ []) :
    (Deliver q ctx msg (World.init clock (fun _ => true))).2.calls.length = 1 ∧
    (Deliver q ctx msg (World.init clock (fun _ => true))).2.metaFiles.length = 1 ∧
    (Deliver q ctx msg (World.init clock (fun _ => true))).2.bodyFiles.length = 1 ∧
    ∀ fuel, n ≤ fuel →
      Finished (n + 1)
        (runWorker q fuel (Deliver q ctx msg (World.init clock (fun _ => true))).2) := by
  have hp := (Deliver_pending q ctx msg clock ht hmsg hok hne).1
  refine ⟨hp.2.2.1, ?_, ?_, ?_⟩
  · obtain ⟨md, c, hmf, _⟩ := hp.2.2.2.2.1
    rw [hmf]
    rfl
  · obtain ⟨b, hbf⟩ := hp.2.2.2.2.2
    rw [hbf]
    rfl
  · intro fuel hfuel
    have := runWorker_pending q ctx.DeliveryID ht hmax (n - 1) 1 _ hp
      (by rw [hq]; push_cast; omega) fuel (by omega)
    have e : 1 + (n - 1) + 1 = n + 1 := by omega
    rw [e] at this
    exact this

/-- Instance of C4 at `max_tries = 1`: the target is called twice and the
message is written to the store by `Deliver`. -/
theorem attempts_exceed_max_tries_witness :
    (1 ≤ 1) ∧ (NewQueue "q" "/q" 1 tempFailTarget).maxTries = ((1 : Nat) : Int) ∧
    (NewQueue "q" "/q" 1 tempFailTarget).maxTries < 2 ^ 63 ∧
    AlwaysTemporary (NewQueue "q" "/q" 1 tempFailTarget).Target ∧
    MsgReader.stream "body" ≠ .failing ∧
    (filterRcpts oneRcptCtx).2 = none ∧ (filterRcpts oneRcptCtx).1.To ≠ [] ∧
    (Deliver (NewQueue "q" "/q" 1 tempFailTarget) oneRcptCtx (.stream "body")
      (World.init sampleClock (fun _ => true))).2.metaFiles.length = 1 ∧
    (runWorker (NewQueue "q" "/q" 1 tempFailTarget) 1
      (Deliver (NewQueue "q" "/q" 1 tempFailTarget) oneRcptCtx (.stream "body")
        (World.init sampleClock (fun _ => true))).2).calls.length = 2 := by
  have ht : AlwaysTemporary (NewQueue "q" "/q" 1 tempFailTarget).Target :=
    fun _ _ _ => ⟨_, rfl, by simp⟩
  have h := attempts_exceed_max_tries (NewQueue "q" "/q" 1 tempFailTarget) oneRcptCtx
    (.stream "body") sampleClock 1 (le_refl 1) rfl (by decide) ht (by simp) (by decide)
    (by decide)
  exact ⟨le_refl 1, rfl, by decide, ht, by simp, by decide, by decide, h.2.1,
    (h.2.2.2 1 (le_refl 1)).2.1⟩

/-! ## Delays with which the wheel is armed -/

theorem workerStep_arms (q : Queue) (id : String) (k : Nat) (w : World)
    (ht : AlwaysTemporary q.Target) (h : Pending id k w) (hk : (k : Int) ≠ q.maxTries)
    (hlt : (k : Int) + 1 < 2 ^ 63) :
    (workerStep q w).wheel =
      [{ due := w.clock (w.tick + 1) + retryDelay q ((k : Int) + 1)
         after := retryDelay q ((k : Int) + 1)
         id := id }] ∧
    (workerStep q w).clock = w.clock ∧ (workerStep q w).tick = w.tick + 3 := by
  obtain ⟨hf, hcan, hcalls, ⟨s, hs, hsid⟩, ⟨md, c, hmf, hid, hc, htc⟩, ⟨b, hbf⟩⟩ := h
  obtain ⟨pe, hpe, hT⟩ := ht w.calls.length { c with Ctx := mapSet c.Ctx "id" md.ID } (some b)
  have hstep : workerStep q w = retryDelivery q id { w with wheel := [] } := by
    simp [workerStep, hf, hs, earliest, hsid]
  have hr := retryDelivery_temporary q id { w with wheel := [] } md c b pe
    (by simp [hmf]) (by simp [hbf]) hc hpe hT (hcan _)
  rw [hstep, hr, if_neg (by rw [htc]; exact hk)]
  have hw : int64Wrap (md.TriesCount + 1) = (k : Int) + 1 := by
    rw [int64Wrap_of_range _ (by omega) (by omega), htc]
  dsimp only
  rw [hw]
  exact ⟨rfl, rfl, rfl⟩

theorem iterate_workerStep_arms (q : Queue) (id : String) (ht : AlwaysTemporary q.Target)
    (hmax : q.maxTries < 2 ^ 63) :
    ∀ (j k : Nat) (w : World), Pending id k w → ((k + j : Nat) : Int) ≤ q.maxTries →
      Pending id (k + j) ((workerStep q)^[j] w) ∧
      ((workerStep q)^[j] w).clock = w.clock ∧
      ((workerStep q)^[j] w).tick = w.tick + 3 * j ∧
      (1 ≤ j → ((workerStep q)^[j] w).wheel =
        [{ due := w.clock (w.tick + 3 * j - 2) + retryDelay q ((k + j : Nat) : Int)
           after := retryDelay q ((k + j : Nat) : Int)
           id := id }]) := by
  intro j
  induction j with
  | zero =>
    intro k w h _
    exact ⟨h, rfl, rfl, fun h0 => absurd h0 (by omega)⟩
  | succ j ih =>
    intro k w h hle
    obtain ⟨hprev, hclk, htick, _⟩ := ih k w h (by push_cast at hle ⊢; omega)
    rw [Function.iterate_succ_apply']
    have hne : ((k + j : Nat) : Int) ≠ q.maxTries := by
      push_cast at hle ⊢
      omega
    have hlt : ((k + j : Nat) : Int) + 1 < 2 ^ 63 := by
      push_cast at hle ⊢
      omega
    obtain ⟨hwheel, hclk2, htick2⟩ := workerStep_arms q id (k + j) _ ht hprev hne hlt
    refine ⟨(workerStep_pending q id (k + j) _ ht hprev).2 hne hlt, ?_, ?_, fun _ => ?_⟩
    · rw [hclk2, hclk]
    · rw [htick2, htick]
      omega
    · rw [hwheel, hclk, htick]
      have e1 : w.tick + 3 * j + 1 = w.tick + 3 * (j + 1) - 2 := by omega
      have e2 : ((k + j : Nat) : Int) + 1 = ((k + (j + 1) : Nat) : Int) := by
        push_cast
        omega
      rw [e1, e2]

theorem Deliver_clock (q : Queue) (ctx : DeliveryContext) (msg : MsgReader)
    (clock : Nat → Int) (ht : AlwaysTemporary q.Target) (hmsg : msg ≠ .failing)
    (hok : (filterRcpts ctx).2 = none) (hne : (filterRcpts ctx).1.To ≠ []) :
    (Deliver q ctx msg (World.init clock (fun _ => true))).2.clock = clock ∧
    (Deliver q ctx msg (World.init clock (fun _ => true))).2.tick = 3 := by
  have hid : (filterRcpts ctx).1.DeliveryID = ctx.DeliveryID := by
    unfold filterRcpts
    split <;> rfl
  obtain ⟨data, hdata⟩ : ∃ data, Deliver q ctx msg (World.init clock (fun _ => true)) =
      (none, deliverTask q ctx.DeliveryID (filterRcpts ctx).1 data
        (World.init clock (fun _ => true))) := by
    unfold Deliver
    generalize filterRcpts ctx = fr at hok hne hid
    obtain ⟨c1, e⟩ := fr
    dsimp only at hok hne hid
    subst hok
    have : ¬ c1.To.length = 0 := fun h0 => hne (List.length_eq_zero.mp h0)
    cases msg with
    | failing => exact absurd rfl hmsg
    | seekable data => exact ⟨data, by simp [this, hid]⟩
    | stream data => exact ⟨data, by simp [this, hid]⟩
  obtain ⟨pe, hpe, hT⟩ := ht 0
    { (filterRcpts ctx).1 with Ctx := mapSet (filterRcpts ctx).1.Ctx "id" ctx.DeliveryID }
    (some data)
  rw [hdata]
  dsimp only
  rw [deliverTask_temporary q ctx.DeliveryID (filterRcpts ctx).1 data
    (World.init clock (fun _ => true)) pe hpe hT rfl rfl]
  simp [World.init]

theorem powDuration_two (k : Nat) (hk : k ≤ 62) : powDuration 2 (k : Int) = 2 ^ k := by
  have h1 : (2 : Int) ^ k ≤ 2 ^ 62 := pow_le_pow_right₀ (by norm_num) hk
  unfold powDuration
  rw [if_neg (by omega)]
  simp only [Int.toNat_ofNat, Nat.cast_ofNat]
  rw [if_pos (by omega)]

theorem retryDelay_default (q : Queue) (k : Nat) (hi : q.initialRetryTime = 15 * minute)
    (hs : q.retryTimeScale = 2) (hk : k ≤ 23) :
    retryDelay q (k : Int) = 15 * minute * 2 ^ k := by
  have h1 : (2 : Int) ^ k ≤ 2 ^ 23 := pow_le_pow_right₀ (by norm_num) hk
  have h0 : (0 : Int) < 2 ^ k := by positivity
  unfold retryDelay
  rw [hi, hs, powDuration_two k (by omega)]
  apply int64Wrap_of_range
  · unfold minute
    norm_num at h1 ⊢
    omega
  · unfold minute
    norm_num at h1 ⊢
    omega

/-- C6 as amended: with the defaults of `NewQueue`, `max_tries` a Go `int`
and a target that always fails temporarily, for every `r` from 2 up to
`max_tries` (and at most 23, so that the product fits in `int64`) the retry
number `r - 1` passes to `wheel.Add`, for retry `r`, the due time
`now + 15 min * 2 ^ r`, where `now` is the clock reading `retryDelivery` takes
for `nextTryTime` (reading number `3 * r - 2` of the run); the wheel then holds
exactly that entry. -/
theorem arming_delays (instName location : String) (n : Nat) (target : DeliveryTarget)
    (ctx : DeliveryContext) (msg : MsgReader) (clock : Nat → Int) (hint : n < 2 ^ 63)
    (ht : AlwaysTemporary target) (hmsg : msg ≠ .failing)
    (hok : (filterRcpts ctx).2 = none) (hne : (filterRcpts ctx).1.To ≠ []) :
    ∀ r : Nat, 2 ≤ r → r ≤ n → r ≤ 23 →
      ((workerStep (NewQueue instName location n target))^[r - 1]
          (Deliver (NewQueue instName location n target) ctx msg
            (World.init clock (fun _ => true))).2).wheel =
        [{ due := clock (3 * r - 2) + 15 * minute * 2 ^ r
           after := 15 * minute * 2 ^ r
           id := ctx.DeliveryID }] := by
  have hd := Deliver_pending (NewQueue instName location n target) ctx msg clock ht hmsg hok hne
  have hc := Deliver_clock (NewQueue instName location n target) ctx msg clock ht hmsg hok hne
  intro r h2 hn h23
  have hmax : (NewQueue instName location n target).maxTries < 2 ^ 63 := by
    show (n : Int) < 2 ^ 63
    omega
  have hit := (iterate_workerStep_arms (NewQueue instName location n target) ctx.DeliveryID
    ht hmax (r - 1) 1 _ hd.1
    (by show ((1 + (r - 1) : Nat) : Int) ≤ (n : Int); omega)).2.2.2 (by omega)
  have e : 1 + (r - 1) = r := by omega
  have e2 : 3 + 3 * (r - 1) - 2 = 3 * r - 2 := by omega
  rw [hit, hc.1, hc.2, e, e2, retryDelay_default _ r rfl rfl h23]

/-- Instance of C6 as amended, for `max_tries = 8` and a clock that advances
one second per reading: the first retry arms the wheel for the second retry at
reading 4 plus 60 minutes. -/
theorem arming_delays_witness :
    (8 : Nat) < 2 ^ 63 ∧ AlwaysTemporary tempFailTarget ∧ MsgReader.stream "body" ≠ .failing ∧
    (filterRcpts oneRcptCtx).2 = none ∧ (filterRcpts oneRcptCtx).1.To ≠ [] ∧
    ((workerStep (NewQueue "q" "/q" (8 : Nat) tempFailTarget))^[2 - 1]
        (Deliver (NewQueue "q" "/q" (8 : Nat) tempFailTarget) oneRcptCtx (.stream "body")
          (World.init sampleClock (fun _ => true))).2).wheel =
      [{ due := sampleClock (3 * 2 - 2) + 15 * minute * 2 ^ 2
         after := 15 * minute * 2 ^ 2
         id := oneRcptCtx.DeliveryID }] := by
  have ht : AlwaysTemporary tempFailTarget := fun _ _ _ => ⟨_, rfl, by simp⟩
  have h := arming_delays "q" "/q" 8 tempFailTarget oneRcptCtx (.stream "body") sampleClock
    (by decide) ht (by simp) (by decide) (by decide)
  exact ⟨by decide, ht, by simp, by decide, by decide,
    h 2 (by decide) (by decide) (by decide)⟩

/-- C6 as stated fails: with the defaults and a clock that advances one second
per reading, the entry that the first retry passes to `wheel.Add` for the
second retry is due at its clock reading (the fifth) plus `15 min * 2 ^ 2`, not plus
`15 min * 2 ^ (2 + 1)`; and the entry that `Deliver` passes for the first
retry is due at its clock reading (the third) plus 15 minutes, not plus
`15 min * 2 ^ (1 + 1)`. -/
theorem arming_delay_not_scaled_twice :
    (workerStep (NewQueue "q" "/q" 8 tempFailTarget)
        (Deliver (NewQueue "q" "/q" 8 tempFailTarget) oneRcptCtx (.stream "body")
          emptyWorld).2).wheel =
      [{ due := sampleClock 4 + 15 * minute * 2 ^ 2, after := 15 * minute * 2 ^ 2,
         id := "m3" }] ∧
    sampleClock 4 + 15 * minute * 2 ^ 2 ≠ sampleClock 4 + 15 * minute * 2 ^ (2 + 1) ∧
    (Deliver (NewQueue "q" "/q" 8 tempFailTarget) oneRcptCtx (.stream "body")
        emptyWorld).2.wheel =
      [{ due := sampleClock 2 + 15 * minute, after := 15 * minute, id := "m3" }] ∧
    sampleClock 2 + 15 * minute ≠ sampleClock 2 + 15 * minute * 2 ^ (1 + 1) := by
  refine ⟨by decide, by decide, by decide, by decide⟩

/-! ## Recovery at startup -/

theorem powDuration_nat (scale e : Nat) (h : (scale : Int) ^ e < 2 ^ 63) :
    powDuration scale (e : Int) = (scale : Int) ^ e := by
  unfold powDuration
  rw [if_neg (by omega)]
  simp only [Int.toNat_ofNat]
  rw [if_pos h]

theorem recovery_after_Deliver (q : Queue) (id : String) (c : DeliveryContext) (b : String)
    (w w2 : World) (pe : PartialError) (s : Slot)
    (ht : q.Target w.calls.length { c with Ctx := mapSet c.Ctx "id" id } (some b)
      = .partialErr pe)
    (hT : pe.TemporaryFailed ≠ []) (hcanB : w.canCreate id = true)
    (hcanM : w.canCreate (id ++ ".meta") = true) (hmono : Monotone w.clock)
    (hi0 : 0 ≤ q.initialRetryTime) (hi1 : q.initialRetryTime < 2 ^ 63)
    (hs : (deliverTask q id c b w).wheel = w.wheel ++ [s])
    (hr : Restarted (deliverTask q id c b w) w2) (hpast : s.due < w2.clock w2.tick) :
    (readDiskEntry q id w2).wheel =
      w2.wheel ++ [{ due := w2.clock (w2.tick + 1) + 5 * second, after := 5 * second, id := id }] := by
  rw [deliverTask_temporary q id c b w pe ht hT hcanB hcanM] at hs hr
  obtain ⟨hmf, hbf, hclk, htick⟩ := hr
  dsimp only at hs hmf hbf hclk htick
  have hsd : s.due = w.clock (w.tick + 2) + q.initialRetryTime := by
    have := List.append_cancel_left hs
    simp only [List.cons.injEq, and_true] at this
    rw [← this]
  have hd : recoveryDelay q 1 = q.initialRetryTime := by
    unfold recoveryDelay
    have h0 : int64Wrap (1 - 1) = ((0 : Nat) : Int) := by decide
    rw [h0, powDuration_nat _ 0 (by norm_num)]
    simp only [pow_zero, mul_one]
    exact int64Wrap_of_range _ (by omega) hi1
  have hle : w.clock w.tick ≤ w.clock (w.tick + 2) := hmono (by omega)
  rw [hclk] at hpast
  have hlt : w.clock w.tick + q.initialRetryTime < w.clock w2.tick := by omega
  simp [readDiskEntry, readMessageMeta, hmf, hbf, timeNow, hd, hclk, hlt]

theorem recovery_after_retry (q : Queue) (id : String) (md : QueueMetadata)
    (c : DeliveryContext) (b : String) (w w2 : World) (pe : PartialError) (s : Slot) (k : Nat)
    (hm : w.metaFiles.lookup id = some (some md)) (hb : w.bodyFiles.lookup id = some b)
    (hc : md.Ctx = some c) (hid : md.ID = id) (hk : md.TriesCount = (k : Int))
    (hne : (k : Int) ≠ q.maxTries) (hint : (k : Int) + 1 < 2 ^ 63)
    (ht : q.Target w.calls.length { c with Ctx := mapSet c.Ctx "id" md.ID } (some b)
      = .partialErr pe)
    (hT : pe.TemporaryFailed ≠ []) (hcan : w.canCreate (md.ID ++ ".meta") = true)
    (hmono : Monotone w.clock) (hi : 1 ≤ q.initialRetryTime) (hsc : 1 ≤ q.retryTimeScale)
    (hfit : q.initialRetryTime * (q.retryTimeScale : Int) ^ (k + 1) < 2 ^ 63)
    (hs : (retryDelivery q id w).wheel = w.wheel ++ [s])
    (hr : Restarted (retryDelivery q id w) w2) (hpast : s.due < w2.clock w2.tick) :
    (readDiskEntry q id w2).wheel =
      w2.wheel ++ [{ due := w2.clock (w2.tick + 1) + 5 * second, after := 5 * second, id := id }] := by
  rw [retryDelivery_temporary q id w md c b pe hm hb hc ht hT hcan,
    if_neg (by rw [hk]; exact hne)] at hs hr
  obtain ⟨hmf, hbf, hclk, htick⟩ := hr
  have hw : int64Wrap (md.TriesCount + 1) = ((k + 1 : Nat) : Int) := by
    rw [int64Wrap_of_range _ (by omega) (by omega), hk]
    push_cast
    rfl
  rw [hw] at hs hmf
  dsimp only at hs hmf hbf hclk htick
  have hsc1 : (1 : Int) ≤ (q.retryTimeScale : Int) := by exact_mod_cast hsc
  have hpk : (1 : Int) ≤ (q.retryTimeScale : Int) ^ k := one_le_pow₀ hsc1
  have hpk1 : (q.retryTimeScale : Int) ^ k ≤ (q.retryTimeScale : Int) ^ (k + 1) :=
    pow_le_pow_right₀ hsc1 (by omega)
  have hmul : q.initialRetryTime * (q.retryTimeScale : Int) ^ k ≤
      q.initialRetryTime * (q.retryTimeScale : Int) ^ (k + 1) :=
    mul_le_mul_of_nonneg_left hpk1 (by omega)
  have hpos : 0 ≤ q.initialRetryTime * (q.retryTimeScale : Int) ^ k :=
    mul_nonneg (by omega) (by omega)
  have hself : (q.retryTimeScale : Int) ^ (k + 1) ≤
      q.initialRetryTime * (q.retryTimeScale : Int) ^ (k + 1) :=
    le_mul_of_one_le_left (by omega) hi
  have hrd : retryDelay q ((k + 1 : Nat) : Int) =
      q.initialRetryTime * (q.retryTimeScale : Int) ^ (k + 1) := by
    unfold retryDelay
    rw [powDuration_nat _ (k + 1) (by omega)]
    exact int64Wrap_of_range _ (by omega) hfit
  have hrec : recoveryDelay q ((k + 1 : Nat) : Int) =
      q.initialRetryTime * (q.retryTimeScale : Int) ^ k := by
    unfold recoveryDelay
    have h0 : int64Wrap (((k + 1 : Nat) : Int) - 1) = (k : Int) := by
      rw [int64Wrap_of_range _ (by omega) (by omega)]
      push_cast
      omega
    rw [h0, powDuration_nat _ k (by omega)]
    exact int64Wrap_of_range _ (by omega) (by omega)
  have hsd : s.due = w.clock (w.tick + 1) + retryDelay q ((k + 1 : Nat) : Int) := by
    have := List.append_cancel_left hs
    simp only [List.cons.injEq, and_true] at this
    rw [← this]
  have hle : w.clock w.tick ≤ w.clock (w.tick + 1) := hmono (by omega)
  rw [hclk] at hpast
  have hlt : w.clock w.tick + q.initialRetryTime * (q.retryTimeScale : Int) ^ k
      < w.clock w2.tick := by
    rw [hsd, hrd] at hpast
    omega
  have hlook : w2.metaFiles.lookup id = some (some
      { ID := md.ID
        Ctx := some
          (if isTCPAddr c.SrcAddr then
            { c with Ctx := mapSet c.Ctx "id" md.ID, To := pe.TemporaryFailed }
          else
            { c with Ctx := mapSet c.Ctx "id" md.ID, To := pe.TemporaryFailed,
                     SrcAddr := none })
        Failed := md.Failed ++ pe.Failed
        TriesCount := ((k + 1 : Nat) : Int)
        LastAttempt := w.clock w.tick }) := by
    rw [hmf, hid]
    simp
  simp only [readDiskEntry, readMessageMeta, hlook, hbf, hb, timeNow, hrec, hclk, hlt, if_true]

/-- C7 as amended: for a record written by `Deliver`, and for a record
written by `retryDelivery` whose armed delay
`initial_retry_delay * retry_scale ^ tries_count` fits in `int64` (with the
defaults: `tries_count` at most 23), with `retry_scale ≥ 1` and a
non-decreasing clock: if the due time with which the wheel was armed is
earlier than the clock reading at startup, the iteration of `readDiskQueue`
for that id arms the wheel at the next clock reading plus 5 seconds. -/
theorem recovery_reschedules_past_due :
    (∀ (q : Queue) (id : String) (c : DeliveryContext) (b : String) (w w2 : World)
        (pe : PartialError) (s : Slot),
      q.Target w.calls.length { c with Ctx := mapSet c.Ctx "id" id } (some b)
        = .partialErr pe →
      pe.TemporaryFailed ≠ [] → w.canCreate id = true → w.canCreate (id ++ ".meta") = true →
      Monotone w.clock → 0 ≤ q.initialRetryTime → q.initialRetryTime < 2 ^ 63 →
      (deliverTask q id c b w).wheel = w.wheel ++ [s] →
      Restarted (deliverTask q id c b w) w2 → s.due < w2.clock w2.tick →
      (readDiskEntry q id w2).wheel =
        w2.wheel ++
          [{ due := w2.clock (w2.tick + 1) + 5 * second, after := 5 * second, id := id }]) ∧
    (∀ (q : Queue) (id : String) (md : QueueMetadata) (c : DeliveryContext) (b : String)
        (w w2 : World) (pe : PartialError) (s : Slot) (k : Nat),
      w.metaFiles.lookup id = some (some md) → w.bodyFiles.lookup id = some b →
      md.Ctx = some c → md.ID = id → md.TriesCount = (k : Int) →
      (k : Int) ≠ q.maxTries → (k : Int) + 1 < 2 ^ 63 →
      q.Target w.calls.length { c with Ctx := mapSet c.Ctx "id" md.ID } (some b)
        = .partialErr pe →
      pe.TemporaryFailed ≠ [] → w.canCreate (md.ID ++ ".meta") = true →
      Monotone w.clock → 1 ≤ q.initialRetryTime → 1 ≤ q.retryTimeScale →
      q.initialRetryTime * (q.retryTimeScale : Int) ^ (k + 1) < 2 ^ 63 →
      (retryDelivery q id w).wheel = w.wheel ++ [s] →
      Restarted (retryDelivery q id w) w2 → s.due < w2.clock w2.tick →
      (readDiskEntry q id w2).wheel =
        w2.wheel ++
          [{ due := w2.clock (w2.tick + 1) + 5 * second, after := 5 * second, id := id }]) :=
  ⟨fun q id c b w w2 pe s ht hT hcanB hcanM hmono hi0 hi1 hs hr hpast =>
      recovery_after_Deliver q id c b w w2 pe s ht hT hcanB hcanM hmono hi0 hi1 hs hr hpast,
   fun q id md c b w w2 pe s k hm hb hc hid hk hne hint ht hT hcan hmono hi hsc hfit hs hr
      hpast =>
      recovery_after_retry q id md c b w w2 pe s k hm hb hc hid hk hne hint ht hT hcan hmono hi
        hsc hfit hs hr hpast⟩

theorem sampleClock_monotone : Monotone sampleClock := by
  intro a b h
  unfold sampleClock second
  omega

/-- Instance of C7 as amended: the record with two attempts written by the
first retry of `m3` was armed 60 minutes ahead; a process that starts at
clock reading 10000 (seconds) schedules it 5 seconds after the next reading. -/
theorem recovery_reschedules_past_due_witness :
    Monotone dispatchedWorld.clock ∧
    (retryDelivery (sampleQueue 8) "m3" dispatchedWorld).wheel =
      dispatchedWorld.wheel ++ [{ due := 3604 * second, after := 60 * minute, id := "m3" }] ∧
    3604 * second < sampleClock 10000 ∧
    (readDiskEntry (sampleQueue 8) "m3"
        { retryDelivery (sampleQueue 8) "m3" dispatchedWorld with
          wheel := [], tick := 10000 }).wheel =
      [{ due := sampleClock 10001 + 5 * second, after := 5 * second, id := "m3" }] := by
  have hs : (retryDelivery (sampleQueue 8) "m3" dispatchedWorld).wheel =
      dispatchedWorld.wheel ++ [{ due := 3604 * second, after := 60 * minute, id := "m3" }] := by
    decide
  have hpast : (3604 * second : Int) < sampleClock 10000 := by decide
  refine ⟨sampleClock_monotone, hs, hpast, ?_⟩
  exact recovery_reschedules_past_due.2 (sampleQueue 8) "m3" storedMeta
    { oneRcptCtx with Ctx := [("id", "m3")] } "body" dispatchedWorld
    { retryDelivery (sampleQueue 8) "m3" dispatchedWorld with wheel := [], tick := 10000 }
    { Successful := [], Failed := [], TemporaryFailed := ["a@x"], Errs := [] }
    { due := 3604 * second, after := 60 * minute, id := "m3" } 1
    (by decide) (by decide) rfl rfl rfl (by decide) (by decide) rfl (by simp) rfl
    sampleClock_monotone (by decide) (by decide) (by decide) hs
    ⟨rfl, rfl, rfl, by decide⟩ hpast

set_option maxRecDepth 100000 in
/-- C7 as stated fails: with `max_tries = 30` the record with 24 attempts is
written by `retryDelivery` and armed with the wrapped (negative) delay
`15 min * 2 ^ 24`, so its due time lies before the clock reading at startup;
`readDiskQueue` nevertheless arms the wheel at
`last_attempt + 15 min * 2 ^ 23`, far after startup plus 5 seconds. -/
theorem recovery_misses_wrapped_due :
    (overflowWorld.metaWrites.map (fun md => md.TriesCount)).getLast? = some 24 ∧
    overflowWorld.wheel.map (fun s => s.due) = [-3347249603709551616] ∧
    (-3347249603709551616 : Int) < overflowWorld.clock overflowWorld.tick ∧
    (readDiskQueue (sampleQueue 30) { overflowWorld with wheel := [] }).wheel.map
      (fun s => s.due) = [7549747269000000000] ∧
    overflowWorld.clock (overflowWorld.tick + 1) + 5 * second = 78 * second ∧
    (7549747269000000000 : Int) ≠ 78 * second := by
  refine ⟨by decide, by decide, by decide, by decide, by decide, by decide⟩

/-- C8, as the code behaves: after `openMessage` reports an error,
`retryDelivery` goes on. With no metadata file it dereferences the nil context
and panics; with metadata but no body file it calls the target with a nil
body, rewrites the metadata and arms the wheel again. -/
theorem retryDelivery_continues_after_failed_read :
    (openMessage "ghost" emptyWorld).2.2 = true ∧
    (retryDelivery (sampleQueue 8) "ghost" emptyWorld).fault = true ∧
    (openMessage "m3" noBodyWorld).2 = (none, true) ∧
    (retryDelivery (sampleQueue 8) "m3" noBodyWorld).calls.map (fun p => p.2) = [none] ∧
    (retryDelivery (sampleQueue 8) "m3" noBodyWorld).metaWrites.map (fun md => md.TriesCount)
      = [2] ∧
    (retryDelivery (sampleQueue 8) "m3" noBodyWorld).wheel.map (fun s => s.id) = ["m3"] := by
  refine ⟨by decide, by decide, by decide, by decide, by decide, by decide⟩

/-! ## SQL storage target -/

/-- C10, as the code behaves: for two existing recipients and the body
`hello`, the first mailbox receives header and body, the second mailbox
receives its header only, with a declared length that covers the header
only: the shared buffer was emptied by the first `CreateMessage`. -/
theorem sqlDeliver_second_recipient_gets_no_body (sanitizeString : String → String) :
    (sqlDeliver sanitizeString twoUserBackend twoRcptCtx "hello").1 = none ∧
    (sqlDeliver sanitizeString twoUserBackend twoRcptCtx "hello").2.messages =
      [{ user := "a", mailbox := "INBOX",
         content := headerFor sanitizeString "s@y" "a@x" ++ "hello",
         declaredLen := (headerFor sanitizeString "s@y" "a@x").utf8ByteSize + 5 },
       { user := "b", mailbox := "INBOX",
         content := headerFor sanitizeString "s@y" "b@x" ++ "",
         declaredLen := (headerFor sanitizeString "s@y" "b@x").utf8ByteSize + 0 }] := by
  have ha : Split "a@x" '@' = ["a", "x"] := by decide
  have hb : Split "b@x" '@' = ["b", "x"] := by decide
  have h5 : ("hello" : String).utf8ByteSize = 5 := by decide
  have h0 : ("" : String).utf8ByteSize = 0 := by decide
  simp [sqlDeliver, sqlDeliverLoop, twoUserBackend, twoRcptCtx, ha, hb, Literal.readAll,
    Literal.Len, h5, h0]

end Maddy
